import Mathlib

/-!
Shallow embedding of the `rt` ray tracer (github.com/ChrisCummins/rt).

Scalars (C++ `typedef double Scalar`) are modelled as exact rationals.
The two libm calls the embedded code performs, `sqrt` (inside
`Vector::size`/`normalise` and `Sphere::intersect`) and `pow` (inside the
Blinn-Phong shading term), are modelled as explicit function parameters
`sq` and `rpow`, so every definition stays computable; theorems that need
properties of the square root state them as hypotheses on `sq` at the
point of use.

The polymorphic C++ base class `Object` (virtual `intersect` / `normal` /
`surface`) is embedded as a structure of those three functions plus the
`position` field, exactly the contract `renderer.cc` is written against;
the concrete variants `Sphere`, `Plane` and `CheckerBoard` are embedded
as constructions of that structure.
-/

namespace RT

/-- C++ `typedef double Scalar` (math.h), modelled as an exact rational. -/
abbrev Scalar := ℚ

/-- math.h: `static const Scalar ScalarPrecision = 1e-6`. -/
def ScalarPrecision : Scalar := 1 / 1000000

/-- math.h `class Vector`: three coordinates plus a translation scalar `w`. -/
structure Vector where
  x : Scalar
  y : Scalar
  z : Scalar
  w : Scalar
  deriving DecidableEq

namespace Vector

/-- math.h `Vector::operator+`: drops `w` (result takes the default `w = 0`). -/
def add (a b : Vector) : Vector := ⟨a.x + b.x, a.y + b.y, a.z + b.z, 0⟩

instance : Add Vector := ⟨add⟩

/-- math.h `Vector::operator-`: drops `w`. -/
def sub (a b : Vector) : Vector := ⟨a.x - b.x, a.y - b.y, a.z - b.z, 0⟩

instance : Sub Vector := ⟨sub⟩

/-- math.h `Vector::operator*(Scalar)`. -/
def smul (a : Vector) (s : Scalar) : Vector := ⟨s * a.x, s * a.y, s * a.z, 0⟩

instance : HMul Vector Scalar Vector := ⟨smul⟩

/-- math.h `Vector::operator/(Scalar)`. -/
def sdiv (a : Vector) (s : Scalar) : Vector := ⟨a.x / s, a.y / s, a.z / s, 0⟩

instance : HDiv Vector Scalar Vector := ⟨sdiv⟩

/-- math.h `Vector::operator^` (dot product; uses the fourth component). -/
def dot (a b : Vector) : Scalar := a.x * b.x + a.y * b.y + a.z * b.z + a.w * b.w

/-- math.h `Vector::operator|` (cross product).  The third component is
transcribed verbatim from the source, `x * b.y - y * b.z` (sic). -/
def cross (a b : Vector) : Vector :=
  ⟨a.y * b.z - a.z * b.y,
   a.z * b.x - a.x * b.z,
   a.x * b.y - a.y * b.z,
   0⟩

/-- The squared 3D length `x*x + y*y + z*z`; `Vector::size()` is its
square root. -/
def normSq (a : Vector) : Scalar := a.x * a.x + a.y * a.y + a.z * a.z

/-- math.h `Vector::size()`, with the libm square root passed as `sq`. -/
def size (sq : Scalar → Scalar) (a : Vector) : Scalar := sq (normSq a)

/-- math.h `Vector::normalise()`: `*this / size()`. -/
def normalise (sq : Scalar → Scalar) (a : Vector) : Vector := a / size sq a

end Vector

/-- graphics.h `class Colour`: R, G, B scalars. -/
structure Colour where
  r : Scalar
  g : Scalar
  b : Scalar
  deriving DecidableEq

namespace Colour

/-- `Colour()` default-constructs to black `(0,0,0)`. -/
def black : Colour := ⟨0, 0, 0⟩

/-- graphics.h `Colour::operator+=` (componentwise accumulation). -/
def add (a c : Colour) : Colour := ⟨a.r + c.r, a.g + c.g, a.b + c.b⟩

instance : Add Colour := ⟨add⟩

/-- graphics.h `Colour::operator*(Scalar)`. -/
def smul (c : Colour) (s : Scalar) : Colour := ⟨c.r * s, c.g * s, c.b * s⟩

instance : HMul Colour Scalar Colour := ⟨smul⟩

/-- graphics.h `Colour::operator/(Scalar)`. -/
def sdiv (c : Colour) (s : Scalar) : Colour := ⟨c.r / s, c.g / s, c.b / s⟩

instance : HDiv Colour Scalar Colour := ⟨sdiv⟩

/-- graphics.h `Colour::operator*(Colour)` (componentwise product). -/
def mul (a c : Colour) : Colour := ⟨a.r * c.r, a.g * c.g, a.b * c.b⟩

instance : Mul Colour := ⟨mul⟩

end Colour

/-- objects.h `class Material`. -/
structure Material where
  colour : Colour
  ambient : Scalar
  diffuse : Scalar
  specular : Scalar
  shininess : Scalar
  reflectivity : Scalar
  deriving DecidableEq

/-- ray.h `class Ray`: origin position plus direction. -/
structure Ray where
  position : Vector
  direction : Vector
  deriving DecidableEq

/-- objects.h abstract `class Object`: a position plus the three virtual
member functions `intersect` (0 means no intersection), `normal` and
`surface`. -/
structure Object where
  position : Vector
  intersect : Ray → Scalar
  normal : Vector → Vector
  surface : Vector → Material

/-- Placeholder used only as the default of `List.getD`; never reached on
the index returned by a successful `closestIntersect`. -/
def defaultObject : Object :=
  { position := ⟨0, 0, 0, 0⟩
    intersect := fun _ => 0
    normal := fun _ => ⟨0, 0, 0, 0⟩
    surface := fun _ =>
      { colour := Colour.black
        ambient := 0
        diffuse := 0
        specular := 0
        shininess := 0
        reflectivity := 0 } }

/-- The modulus of C `size_t` arithmetic: the helpers of image.h compute
in 64-bit unsigned integers, which wrap modulo `2^64`. -/
def sizeTWrap : ℕ := 2 ^ 64

namespace image

/-- image.h `image::index`: 2D to flat array coordinates.  The source
computes `y * width + x` in `size_t`, so the result wraps modulo
`2^64`. -/
def index (x y width : ℕ) : ℕ := (y * width + x) % sizeTWrap

/-- image.h `image::x`: flat index to column.  The `size_t` remainder of
in-range values cannot overflow, so no further wrap is needed. -/
def x (index width : ℕ) : ℕ := index % width

/-- image.h `image::y`: flat index to row.  The `size_t` quotient of
in-range values cannot overflow, so no further wrap is needed. -/
def y (index width : ℕ) : ℕ := index / width

end image

/-- The comparison `currentT < *t` of `closestIntersect`, where `*t` is
initialised to `INFINITY`: the accumulator `none` models the state before
any intersection was found (`INFINITY` is strictly greater than every
finite Scalar, so the comparison is true there). -/
def closerThan (currentT : Scalar) : Option (ℕ × Scalar) → Bool
  | none => true
  | some p => currentT < p.2

/-- The scan loop of `closestIntersect` (renderer.cc, lines 48-59; main.cc,
lines 604-615): for each object in turn, replace the best candidate when
`currentT != 0 && currentT < *t`. -/
def closestIntersectAux (ray : Ray) :
    List Object → ℕ → Option (ℕ × Scalar) → Option (ℕ × Scalar)
  | [], _, acc => acc
  | o :: rest, i, acc =>
    closestIntersectAux ray rest (i + 1)
      (if o.intersect ray ≠ 0 ∧ closerThan (o.intersect ray) acc then
        some (i, o.intersect ray)
      else acc)

/-- `closestIntersect` (renderer.cc, lines 40-62; main.cc, lines 596-618):
returns the index of the object with the closest intersection together
with the distance `t`; `none` models `nullptr` (renderer.cc) / index `-1`
(main.cc).  renderer.cc returns the object pointer itself, i.e.
`objects[i]` for the returned index `i`. -/
def closestIntersect (ray : Ray) (objects : List Object) : Option (ℕ × Scalar) :=
  closestIntersectAux ray objects 0 none

/-- main.cc `intersects` (lines 620-629): whether the ray intersects any
object at all (`intersect(ray) != 0`). -/
def intersects (ray : Ray) (objects : List Object) : Bool :=
  objects.any fun o => decide (o.intersect ray ≠ 0)

/-- lights.h abstract `class Light`: the single virtual member
`shade(point, normal, toRay, material, objects)`.  The concrete lights
draw jittered samples from a mutable global/member RNG; at this interface
a light is just its shading function. -/
structure Light where
  shade : Vector → Vector → Vector → Material → List Object → Colour

/-- scene.h `class Scene`: the aggregate object and light lists. -/
structure Scene where
  objects : List Object
  lights : List Light

/-- camera.h `class Lens` (the mutable `aperture` disk sampler, being RNG
state, is not part of the value model). -/
structure Lens where
  focalLength : Scalar
  focus : Scalar

/-- camera.h `class Camera` (fields as stored after construction). -/
structure Camera where
  position : Vector
  direction : Vector
  filmBack : Vector
  right : Vector
  up : Vector
  width : Scalar
  height : Scalar
  lens : Lens
  focusDistance : Scalar

/-- camera.h `Camera::Camera` (lines 58-73): derives `direction`,
`filmBack`, `right`, `up` and `focusDistance` from `position` and
`lookAt`; `sq` models the libm square root used by `normalise`/`size`. -/
def Camera.make (sq : Scalar → Scalar) (position lookAt : Vector)
    (width height : Scalar) (lens : Lens) : Camera :=
  { position := position
    direction := Vector.normalise sq (lookAt - position)
    filmBack := position -
      Vector.normalise sq (lookAt - position) * lens.focalLength
    right := Vector.cross (Vector.normalise sq (lookAt - position)) ⟨0, 1, 0, 0⟩
    up := Vector.cross
      (Vector.cross (Vector.normalise sq (lookAt - position)) ⟨0, 1, 0, 0⟩)
      (Vector.normalise sq (lookAt - position))
    width := width
    height := height
    lens := lens
    focusDistance := Vector.size sq (position - lookAt) * lens.focus }

/-- renderer.h `class Renderer` configuration state. -/
structure Renderer where
  scene : Scene
  camera : Camera
  maxRayDepth : ℕ
  numDofSamples : ℕ

/-- renderer.cc `Renderer::trace` (lines 317-362): find the closest
intersection, return black if there is none, otherwise accumulate the
ambient term, the shade of every light, and (when `depth < maxRayDepth` and
`reflectivity > 0`) the recursively traced reflection scaled by the
reflectivity. -/
def trace (sq : Scalar → Scalar) (r : Renderer) (ray : Ray) (depth : ℕ) : Colour :=
  match closestIntersect ray r.scene.objects with
  | none => Colour.black
  | some it =>
    let object := r.scene.objects.getD it.1 defaultObject
    let intersect := ray.position + ray.direction * it.2
    let normal := object.normal intersect
    let toRay := Vector.normalise sq (ray.position - intersect)
    let material := object.surface intersect
    let base := r.scene.lights.foldl
      (fun c light => c + light.shade intersect normal toRay material r.scene.objects)
      (Colour.black + material.colour * material.ambient)
    if h : depth < r.maxRayDepth ∧ material.reflectivity > 0 then
      base + trace sq r
        ⟨intersect, Vector.normalise sq (normal * (2 : Scalar) * normal.dot toRay - toRay)⟩
        (depth + 1) * material.reflectivity
    else base
termination_by r.maxRayDepth - depth
decreasing_by
  obtain ⟨h1, -⟩ := h
  omega

/-- The number of `Renderer::trace` invocations a call performs (the
`profiling::counters::incTraceCount` counter, bumped once per call): 1 for
this call plus, when the reflection branch is taken, the count of the recursive
call.  Shares the branch structure of `trace` exactly. -/
def traceCalls (sq : Scalar → Scalar) (r : Renderer) (ray : Ray) (depth : ℕ) : ℕ :=
  match closestIntersect ray r.scene.objects with
  | none => 1
  | some it =>
    let object := r.scene.objects.getD it.1 defaultObject
    let intersect := ray.position + ray.direction * it.2
    let normal := object.normal intersect
    let toRay := Vector.normalise sq (ray.position - intersect)
    let material := object.surface intersect
    if h : depth < r.maxRayDepth ∧ material.reflectivity > 0 then
      1 + traceCalls sq r
        ⟨intersect, Vector.normalise sq (normal * (2 : Scalar) * normal.dot toRay - toRay)⟩
        (depth + 1)
    else 1
termination_by r.maxRayDepth - depth
decreasing_by
  obtain ⟨h1, -⟩ := h
  omega

/-- Sum of a list of colours (black is the zero of colour accumulation);
used to state the shading sum of `trace`. -/
def colourSum (cs : List Colour) : Colour := cs.foldl (· + ·) Colour.black

/-- objects.h `class Sphere` data: position (from `Object`), radius,
material. -/
structure Sphere where
  position : Vector
  radius : Scalar
  material : Material

/-- objects.h `Sphere::intersect` (lines 178-196; identically main.cc,
lines 360-378): quadratic ray-sphere intersection; `sq` models the libm
`sqrt` call. -/
def Sphere.intersect (sq : Scalar → Scalar) (s : Sphere) (ray : Ray) : Scalar :=
  let distance := s.position - ray.position
  let b := ray.direction.dot distance
  let d := b * b + s.radius * s.radius - distance.dot distance
  if d < 0 then 0
  else
    let t0 := b - sq d
    let t1 := b + sq d
    if t0 > ScalarPrecision then t0
    else if t1 > ScalarPrecision then t1
    else 0

/-- objects.h `Sphere::normal`. -/
def Sphere.normal (sq : Scalar → Scalar) (s : Sphere) (p : Vector) : Vector :=
  Vector.normalise sq (p - s.position)

/-- The `Object` interface view of a `Sphere` (`surface` returns the
constant material). -/
def Sphere.toObject (sq : Scalar → Scalar) (s : Sphere) : Object :=
  { position := s.position
    intersect := Sphere.intersect sq s
    normal := Sphere.normal sq s
    surface := fun _ => s.material }

/-- objects.h `class Plane` data: position (origin), direction (normal,
normalised by the constructor), material. -/
structure Plane where
  position : Vector
  direction : Vector
  material : Material

/-- objects.h `Plane` constructor: normalises the direction. -/
def Plane.make (sq : Scalar → Scalar) (origin direction : Vector)
    (material : Material) : Plane :=
  { position := origin
    direction := Vector.normalise sq direction
    material := material }

/-- objects.h `Plane::intersect` (lines 102-118; identically main.cc,
lines 302-318): linear ray-plane intersection with the half-epsilon
accommodation.  The division `f / g` is total in the embedding (`q / 0 =
0` for rationals); in C++ a parallel ray gives `±INFINITY`/NaN there,
which the subsequent comparisons likewise never accept as a positive
finite hit closer than another object. -/
def Plane.intersect (p : Plane) (ray : Ray) : Scalar :=
  let f := (p.position - ray.position).dot p.direction
  let g := ray.direction.dot p.direction
  let t := f / g
  let t0 := t - ScalarPrecision / 2
  let t1 := t + ScalarPrecision / 2
  if t0 > ScalarPrecision then t0
  else if t1 > ScalarPrecision then t1
  else 0

/-- The `Object` interface view of a `Plane` (`normal` is the constant
direction, `surface` the constant material). -/
def Plane.toObject (p : Plane) : Object :=
  { position := p.position
    intersect := Plane.intersect p
    normal := fun _ => p.direction
    surface := fun _ => p.material }

/-- objects.h `class CheckerBoard` data: a plane plus two materials and a
checker width. -/
structure CheckerBoard where
  position : Vector
  direction : Vector
  checkerWidth : Scalar
  material1 : Material
  material2 : Material

/-- The C cast `(int)` from a floating-point value: truncation toward
zero (`Int.tdiv` of numerator by denominator truncates a rational toward
zero, since the denominator is positive). -/
def cint (q : Scalar) : ℤ := q.num.tdiv (q.den : ℤ)

/-- objects.h `CheckerBoard::surface` (lines 142-156).  Its
private `static Scalar gridOffset` is initialised in a source file not
available here, so it is passed as an explicit parameter; the main.cc
variant (lines 336-349) uses the point unshifted, i.e. `gridOffset = 0`.
C++ `%` on `int` is truncated modulo, `Int.tmod`. -/
def CheckerBoard.surface (gridOffset : Scalar) (cb : CheckerBoard)
    (point : Vector) : Material :=
  let relative : Vector := ⟨point.x + gridOffset, point.z + gridOffset, 0, 0⟩
  let x : ℤ := cint relative.x
  let y : ℤ := cint relative.y
  let half : ℤ := cint (cb.checkerWidth * 2)
  let m : ℤ := half * 2
  if x.tmod m < half then
    (if y.tmod m < half then cb.material1 else cb.material2)
  else
    (if y.tmod m < half then cb.material2 else cb.material1)

/-- main.cc `class PointLight` data (rt.h): position and colour. -/
structure PointLight where
  position : Vector
  colour : Colour

/-- main.cc `PointLight::shade` (lines 387-422): a single shadow ray
toward the light; when it is blocked the contribution is black, otherwise
Lambert diffuse plus Blinn-Phong specular.  `sq` models libm `sqrt` (via
`normalise`) and `rpow` models libm `pow` (the Phong exponentiation). -/
def PointLight.shade (sq : Scalar → Scalar) (rpow : Scalar → Scalar → Scalar)
    (l : PointLight) (point normal toRay : Vector) (material : Material)
    (objects : List Object) : Colour :=
  let toLight := Vector.normalise sq (l.position - point)
  let blocked := intersects ⟨point, toLight⟩ objects
  if blocked then Colour.black
  else
    let illumination := l.colour * material.colour
    let lambert := max (normal.dot toLight) 0
    let afterDiffuse :=
      Colour.black + illumination * material.diffuse * lambert
    let bisector := Vector.normalise sq (toRay + toLight)
    let phong := rpow (max (normal.dot bisector) 0) material.shininess
    afterDiffuse + illumination * material.specular * phong

/-- An `sq` model that is only ever applied where the answer is 1. -/
def sqOne : Scalar → Scalar := fun _ => 1

/-- A test material with zero reflectivity. -/
def exMaterial : Material :=
  { colour := ⟨1, 1, 1⟩
    ambient := 1 / 2
    diffuse := 1
    specular := 1
    shininess := 1
    reflectivity := 0 }

/-- A test object whose `intersect` is the constant `t`. -/
def constObject (t : Scalar) : Object :=
  { position := ⟨0, 0, 0, 0⟩
    intersect := fun _ => t
    normal := fun _ => ⟨0, 0, 1, 0⟩
    surface := fun _ => exMaterial }

/-- A test ray from the origin along `+z`. -/
def exRay : Ray := ⟨⟨0, 0, 0, 0⟩, ⟨0, 0, 1, 0⟩⟩

/-- A test sphere: unit radius, centred at `(0, 0, 5)`. -/
def exSphere : Sphere := ⟨⟨0, 0, 5, 0⟩, 1, exMaterial⟩

/-- An `sq` model that is only ever applied where the answer is 5. -/
def sqFive : Scalar → Scalar := fun _ => 5

/-- A test camera looking from the origin at `(3,4,0)`: the viewing
direction has an exactly representable length 5. -/
def camEx : Camera := Camera.make sqFive ⟨0, 0, 0, 0⟩ ⟨3, 4, 0, 0⟩ 100 100 ⟨50, 1⟩

/-- A second test material, distinct from `exMaterial`. -/
def exMaterial2 : Material :=
  { colour := ⟨0, 0, 0⟩
    ambient := 1 / 2
    diffuse := 1
    specular := 1
    shininess := 1
    reflectivity := 0 }

/-- A test checkerboard with `checkerWidth = 30` and two distinct
materials. -/
def cbEx : CheckerBoard := ⟨⟨0, 0, 0, 0⟩, ⟨0, 1, 0, 0⟩, 30, exMaterial, exMaterial2⟩

/-- A test renderer: one constant object at distance 1, no lights. -/
def exRenderer : Renderer :=
  { scene := { objects := [constObject 1], lights := [] }
    camera := Camera.make sqOne ⟨0, 0, 0, 0⟩ ⟨0, 0, 1, 0⟩ 1 1 ⟨1, 1⟩
    maxRayDepth := 5
    numDofSamples := 1 }

/-- Unfolding lemma for vector addition. -/
theorem vector_add_def (a b : Vector) :
    a + b = ⟨a.x + b.x, a.y + b.y, a.z + b.z, 0⟩ := rfl

/-- Unfolding lemma for vector subtraction. -/
theorem vector_sub_def (a b : Vector) :
    a - b = ⟨a.x - b.x, a.y - b.y, a.z - b.z, 0⟩ := rfl

/-- Unfolding lemma for vector-scalar multiplication. -/
theorem vector_smul_def (a : Vector) (s : Scalar) :
    a * s = ⟨s * a.x, s * a.y, s * a.z, 0⟩ := rfl

/-- Unfolding lemma for vector-scalar division. -/
theorem vector_sdiv_def (a : Vector) (s : Scalar) :
    a / s = ⟨a.x / s, a.y / s, a.z / s, 0⟩ := rfl

/-- Unfolding lemma for colour addition. -/
theorem colour_add_def (a c : Colour) : a + c = ⟨a.r + c.r, a.g + c.g, a.b + c.b⟩ := rfl

/-- Unfolding lemma for colour-scalar multiplication. -/
theorem colour_smul_def (c : Colour) (s : Scalar) :
    c * s = ⟨c.r * s, c.g * s, c.b * s⟩ := rfl

/-- Unfolding lemma for the componentwise colour product. -/
theorem colour_mul_def (a c : Colour) :
    a * c = ⟨a.r * c.r, a.g * c.g, a.b * c.b⟩ := rfl

/-- Black is a left unit for colour accumulation. -/
theorem Colour.black_add (c : Colour) : Colour.black + c = c := by
  cases c
  simp [colour_add_def, Colour.black]

/-- Black is a right unit for colour accumulation. -/
theorem Colour.add_black (c : Colour) : c + Colour.black = c := by
  cases c
  simp [colour_add_def, Colour.black]

/-- Colour accumulation is associative. -/
theorem Colour.add_assoc (a c d : Colour) : a + c + d = a + (c + d) := by
  simp only [colour_add_def, Colour.mk.injEq]
  refine ⟨by ring, by ring, by ring⟩

/-- Folding colour accumulation from any initial value splits off the sum. -/
theorem colourSum_foldl (cs : List Colour) :
    ∀ init : Colour, cs.foldl (· + ·) init = init + colourSum cs := by
  induction cs with
  | nil => intro init; simp [colourSum, Colour.add_black]
  | cons c cs ih =>
    intro init
    have hcons : colourSum (c :: cs) = c + colourSum cs := by
      show (c :: cs).foldl (· + ·) Colour.black = _
      rw [List.foldl_cons, ih (Colour.black + c), Colour.black_add]
    rw [List.foldl_cons, ih (init + c), hcons, Colour.add_assoc]

/-- C10 (amended): when `y * width + x` does not overflow `size_t`
(`y * width + x < 2^64`) the flat-index helpers round-trip exactly:
`index(x, y, w) = y*w + x`, `x(index(x, y, w), w) = x`,
`y(index(x, y, w), w) = y` for `0 < w` and `x < w`; and conversely every
representable flat index `i < 2^64` satisfies
`index(x(i, w), y(i, w), w) = i`. -/
theorem image_index_roundtrip (width xc yc i : ℕ) (hw : 0 < width)
    (hx : xc < width) (hno : yc * width + xc < sizeTWrap)
    (hi : i < sizeTWrap) :
    image.index xc yc width = yc * width + xc ∧
    image.x (image.index xc yc width) width = xc ∧
    image.y (image.index xc yc width) width = yc ∧
    image.index (image.x i width) (image.y i width) width = i := by
  have h1 : image.index xc yc width = yc * width + xc := by
    show (yc * width + xc) % sizeTWrap = yc * width + xc
    exact Nat.mod_eq_of_lt hno
  refine ⟨h1, ?_, ?_, ?_⟩
  · rw [h1]
    show (yc * width + xc) % width = xc
    rw [Nat.mul_comm yc width, Nat.mul_add_mod]
    exact Nat.mod_eq_of_lt hx
  · rw [h1]
    show (yc * width + xc) / width = yc
    rw [Nat.mul_comm yc width, Nat.mul_add_div hw, Nat.div_eq_of_lt hx]
    omega
  · show (i / width * width + i % width) % sizeTWrap = i
    have h2 : i / width * width + i % width = i := by
      rw [Nat.mul_comm]
      exact Nat.div_add_mod i width
    rw [h2]
    exact Nat.mod_eq_of_lt hi

/-- Witness for C10 (amended) at `width = 7`, `x = 3`, `y = 2`,
`i = 45`. -/
theorem image_index_roundtrip_witness :
    0 < 7 ∧ 3 < 7 ∧ 2 * 7 + 3 < sizeTWrap ∧ 45 < sizeTWrap ∧
    (image.index 3 2 7 = 2 * 7 + 3 ∧
     image.x (image.index 3 2 7) 7 = 3 ∧
     image.y (image.index 3 2 7) 7 = 2 ∧
     image.index (image.x 45 7) (image.y 45 7) 7 = 45) :=
  ⟨by decide, by decide, by norm_num [sizeTWrap], by norm_num [sizeTWrap],
    image_index_roundtrip 7 3 2 45 (by decide) (by decide)
      (by norm_num [sizeTWrap]) (by norm_num [sizeTWrap])⟩

/-- Counterexample to C10 as stated: the helpers compute in `size_t`, so
at `width = 2`, `x = 1`, `y = 2^63` the sum `y*width + x = 2^64 + 1`
wraps to flat index 1, and the row read back is
`image::y(1, 2) = 0 ≠ 2^63`: the round-trip fails without a no-overflow
bound on `y * width + x`. -/
theorem image_index_wraps :
    0 < 2 ∧ 1 < 2 ∧
    image.index 1 (2 ^ 63) 2 = 1 ∧
    image.y (image.index 1 (2 ^ 63) 2) 2 = 0 ∧
    (0 : ℕ) ≠ 2 ^ 63 := by
  have hidx : image.index 1 (2 ^ 63) 2 = 1 := by
    show (2 ^ 63 * 2 + 1) % sizeTWrap = 1
    norm_num [sizeTWrap]
  refine ⟨by norm_num, by norm_num, hidx, ?_, by positivity⟩
  rw [hidx]
  rfl

/-- C5: `Sphere::intersect` returns 0 when the discriminant is negative;
otherwise it applies the epsilon policy to the two roots `t0 = b - sqrt d`
and `t1 = b + sqrt d` in ascending order (ascending whenever the modelled
square root is nonnegative, as the libm one is): the smallest root exceeding
`ScalarPrecision` is returned, 0 when neither qualifies; every nonzero
result exceeds `ScalarPrecision` (so roots within half an epsilon of zero
are never returned), and the result is never negative. -/
theorem sphere_intersect_policy (sq : Scalar → Scalar) (s : Sphere) (ray : Ray) :
    let distance := s.position - ray.position
    let b := ray.direction.dot distance
    let d := b * b + s.radius * s.radius - distance.dot distance
    let t0 := b - sq d
    let t1 := b + sq d
    (d < 0 → Sphere.intersect sq s ray = 0) ∧
    (0 ≤ sq d → t0 ≤ t1) ∧
    (0 ≤ d →
      (ScalarPrecision < t0 → Sphere.intersect sq s ray = t0) ∧
      (t0 ≤ ScalarPrecision → ScalarPrecision < t1 →
        Sphere.intersect sq s ray = t1) ∧
      (t0 ≤ ScalarPrecision → t1 ≤ ScalarPrecision →
        Sphere.intersect sq s ray = 0)) ∧
    (Sphere.intersect sq s ray = 0 ∨
      (ScalarPrecision < Sphere.intersect sq s ray ∧
        (Sphere.intersect sq s ray = t0 ∨ Sphere.intersect sq s ray = t1))) ∧
    0 ≤ Sphere.intersect sq s ray := by
  have heps : (0 : Scalar) < ScalarPrecision := by norm_num [ScalarPrecision]
  simp only [Sphere.intersect]
  split_ifs with h1 h2 h3
  · refine ⟨fun _ => rfl, fun hs => by linarith, fun hd => absurd hd (not_le.mpr h1),
      Or.inl rfl, le_refl 0⟩
  · refine ⟨fun hd => absurd hd h1, fun hs => by linarith, fun _ => ?_,
      Or.inr ⟨h2, Or.inl rfl⟩, by linarith⟩
    exact ⟨fun _ => rfl, fun ha _ => absurd h2 (not_lt.mpr ha),
      fun ha _ => absurd h2 (not_lt.mpr ha)⟩
  · refine ⟨fun hd => absurd hd h1, fun hs => by linarith, fun _ => ?_,
      Or.inr ⟨h3, Or.inr rfl⟩, by linarith⟩
    exact ⟨fun h0 => absurd h0 h2, fun _ _ => rfl,
      fun _ hb => absurd h3 (not_lt.mpr hb)⟩
  · refine ⟨fun _ => rfl, fun hs => by linarith, fun _ => ?_, Or.inl rfl, le_refl 0⟩
    exact ⟨fun h0 => absurd h0 h2, fun _ hb => absurd hb h3, fun _ _ => rfl⟩

/-- Witness for C5: the unit sphere at `(0,0,5)` hit by the ray from the
origin along `+z`; the discriminant is 1, its square root 1, and the
returned distance is the near root 4. -/
theorem sphere_intersect_policy_witness :
    ScalarPrecision < (4 : Scalar) ∧
    Sphere.intersect sqOne exSphere exRay = 4 := by
  refine ⟨by norm_num [ScalarPrecision], ?_⟩
  have h := ((sphere_intersect_policy sqOne exSphere exRay).2.2.1
      (by norm_num [exSphere, exRay, Vector.dot, vector_sub_def])).1
      (by norm_num [exSphere, exRay, Vector.dot, vector_sub_def, sqOne, ScalarPrecision])
  rw [h]
  norm_num [exSphere, exRay, Vector.dot, vector_sub_def, sqOne]

/-- `List.getD` on an append, below the length of the first list. -/
theorem getD_append_lt {α : Type} (l l2 : List α) (d : α) (n : ℕ)
    (h : n < l.length) : (l ++ l2).getD n d = l.getD n d := by
  induction l generalizing n with
  | nil => simp at h
  | cons a rest ih =>
    cases n with
    | zero => rfl
    | succ m =>
      show (rest ++ l2).getD m d = rest.getD m d
      exact ih m (by simpa using h)

/-- `List.getD` at the length of the prefix of a one-element append. -/
theorem getD_concat_length {α : Type} (l : List α) (o d : α) :
    (l ++ [o]).getD l.length d = o := by
  induction l with
  | nil => rfl
  | cons a rest ih => simpa using ih

/-- `List.getD` below the length is a member. -/
theorem getD_mem {α : Type} (l : List α) (d : α) (n : ℕ) (h : n < l.length) :
    l.getD n d ∈ l := by
  induction l generalizing n with
  | nil => simp at h
  | cons a rest ih =>
    cases n with
    | zero => exact List.mem_cons_self a rest
    | succ m =>
      exact List.mem_cons_of_mem a (ih m (by simpa using h))

/-- Processing one more object at the end of the scan applies the loop
body once to the result of the scan of the prefix. -/
theorem closestIntersectAux_append (ray : Ray) (l : List Object) (o : Object) :
    ∀ (i : ℕ) (acc : Option (ℕ × Scalar)),
      closestIntersectAux ray (l ++ [o]) i acc =
        if o.intersect ray ≠ 0 ∧
            closerThan (o.intersect ray) (closestIntersectAux ray l i acc) then
          some (i + l.length, o.intersect ray)
        else closestIntersectAux ray l i acc := by
  induction l with
  | nil =>
    intro i acc
    simp [closestIntersectAux]
  | cons a rest ih =>
    intro i acc
    simp only [List.cons_append, closestIntersectAux, List.append_eq]
    rw [ih]
    have hlen : i + 1 + rest.length = i + (a :: rest).length := by
      simp [List.length_cons]
      omega
    rw [hlen]

/-- The scan returns `none` exactly when the `intersect` of every object is 0. -/
theorem closestIntersect_none_iff (ray : Ray) (objects : List Object) :
    closestIntersect ray objects = none ↔
      ∀ o ∈ objects, o.intersect ray = 0 := by
  induction objects using List.reverseRecOn with
  | nil => simp [closestIntersect, closestIntersectAux]
  | append_singleton l o ih =>
    unfold closestIntersect at ih ⊢
    rw [closestIntersectAux_append]
    by_cases h0 : o.intersect ray = 0
    · simp only [h0, ne_eq, not_true_eq_false, false_and, if_false]
      rw [ih]
      constructor
      · intro h o2 ho2
        rcases List.mem_append.mp ho2 with h2 | h2
        · exact h o2 h2
        · rw [List.mem_singleton.mp h2, h0]
      · intro h o2 ho2
        exact h o2 (List.mem_append.mpr (Or.inl ho2))
    · constructor
      · intro h
        exfalso
        cases hres : closestIntersectAux ray l 0 none with
        | none =>
          rw [hres] at h
          simp [closerThan, h0] at h
        | some p =>
          rw [hres] at h
          by_cases hc : o.intersect ray ≠ 0 ∧ closerThan (o.intersect ray) (some p)
          · rw [if_pos hc] at h; exact Option.noConfusion h
          · rw [if_neg hc] at h; exact Option.noConfusion h
      · intro h
        exact absurd (h o (List.mem_append.mpr (Or.inr (List.mem_singleton.mpr rfl)))) h0

/-- On a successful scan the returned index is in range, the
returned `t` is the intersect distance of that object, nonzero, minimal among
all nonzero intersect distances, and strictly below every nonzero
distance of an earlier object (first object wins ties). -/
theorem closestIntersect_some_spec (ray : Ray) (objects : List Object) :
    ∀ j t, closestIntersect ray objects = some (j, t) →
      j < objects.length ∧
      (objects.getD j defaultObject).intersect ray = t ∧
      t ≠ 0 ∧
      (∀ k, k < objects.length →
        (objects.getD k defaultObject).intersect ray ≠ 0 →
        t ≤ (objects.getD k defaultObject).intersect ray) ∧
      (∀ k, k < j →
        (objects.getD k defaultObject).intersect ray ≠ 0 →
        t < (objects.getD k defaultObject).intersect ray) := by
  induction objects using List.reverseRecOn with
  | nil =>
    intro j t h
    exact Option.noConfusion h
  | append_singleton l o ih =>
    intro j t h
    unfold closestIntersect at ih h
    rw [closestIntersectAux_append] at h
    by_cases hc : o.intersect ray ≠ 0 ∧
        closerThan (o.intersect ray) (closestIntersectAux ray l 0 none)
    · rw [if_pos hc] at h
      obtain ⟨hj, ht⟩ := Prod.mk.injEq .. ▸ Option.some.injEq .. ▸ h
      have hj2 : j = l.length := by omega
      subst hj2
      subst ht
      have hsel : ∀ k, k < l.length →
          (l.getD k defaultObject).intersect ray ≠ 0 →
          o.intersect ray < (l.getD k defaultObject).intersect ray := by
        intro k hk hnz
        cases hres : closestIntersectAux ray l 0 none with
        | none =>
          exact absurd ((closestIntersect_none_iff ray l).mp hres
            (l.getD k defaultObject) (getD_mem l defaultObject k hk)) hnz
        | some p =>
          have hclose : o.intersect ray < p.2 := by
            have := hc.2
            rw [hres] at this
            simpa [closerThan] using this
          have hspec := ih p.1 p.2 (by rw [hres])
          exact lt_of_lt_of_le hclose (hspec.2.2.2.1 k hk hnz)
      refine ⟨by simp, ?_, hc.1, ?_, ?_⟩
      · rw [getD_concat_length]
      · intro k hk hnz
        rcases Nat.lt_succ_iff_lt_or_eq.mp (by simpa using hk) with hlt | heq
        · rw [getD_append_lt l [o] defaultObject k hlt] at hnz ⊢
          exact le_of_lt (hsel k hlt hnz)
        · subst heq
          rw [getD_concat_length]
      · intro k hk hnz
        rw [getD_append_lt l [o] defaultObject k hk] at hnz ⊢
        exact hsel k hk hnz
    · rw [if_neg hc] at h
      have hspec := ih j t h
      have hjl : j < l.length := hspec.1
      refine ⟨by simp; omega, ?_, hspec.2.2.1, ?_, ?_⟩
      · rw [getD_append_lt l [o] defaultObject j hjl]
        exact hspec.2.1
      · intro k hk hnz
        rcases Nat.lt_succ_iff_lt_or_eq.mp (by simpa using hk) with hlt | heq
        · rw [getD_append_lt l [o] defaultObject k hlt] at hnz ⊢
          exact hspec.2.2.2.1 k hlt hnz
        · subst heq
          rw [getD_concat_length] at hnz ⊢
          rw [h] at hc
          have : ¬(o.intersect ray < t) := by
            intro hlt2
            exact hc ⟨hnz, by simpa [closerThan] using hlt2⟩
          linarith [not_lt.mp this]
      · intro k hk hnz
        have hkl : k < l.length := lt_trans hk hjl
        rw [getD_append_lt l [o] defaultObject k hkl] at hnz ⊢
        exact hspec.2.2.2.2 k hk hnz

/-- C2: `closestIntersect` returns the object whose `intersect` value is
minimal among all objects returning a nonzero distance, ties broken in
favour of the first such object in list order (the returned distance is
strictly below every nonzero distance of an earlier object), and it returns
no object (`nullptr` / index `-1`, here `none`) exactly when the `intersect`
of every object returns 0. -/
theorem closestIntersect_min (ray : Ray) (objects : List Object) :
    (closestIntersect ray objects = none ↔
      ∀ o ∈ objects, o.intersect ray = 0) ∧
    (∀ j t, closestIntersect ray objects = some (j, t) →
      j < objects.length ∧
      (objects.getD j defaultObject).intersect ray = t ∧
      t ≠ 0 ∧
      (∀ k, k < objects.length →
        (objects.getD k defaultObject).intersect ray ≠ 0 →
        t ≤ (objects.getD k defaultObject).intersect ray) ∧
      (∀ k, k < j →
        (objects.getD k defaultObject).intersect ray ≠ 0 →
        t < (objects.getD k defaultObject).intersect ray)) :=
  ⟨closestIntersect_none_iff ray objects, closestIntersect_some_spec ray objects⟩

/-- Witness for C2: among constant-distance objects `[5, 3, 3]` the scan
returns index 1 with distance 3 (the first of the tied minima), and its
characterisation is obtained from the theorem. -/
theorem closestIntersect_min_witness :
    closestIntersect exRay [constObject 5, constObject 3, constObject 3] =
      some (1, 3) ∧
    (1 < 3 ∧
      ([constObject 5, constObject 3, constObject 3].getD 1
        defaultObject).intersect exRay = 3) := by
  have hrun : closestIntersect exRay
      [constObject 5, constObject 3, constObject 3] = some (1, 3) := by
    show closestIntersectAux exRay _ 0 none = _
    simp only [closestIntersectAux, closerThan, constObject]
    norm_num
  have hspec := (closestIntersect_min exRay
    [constObject 5, constObject 3, constObject 3]).2 1 3 hrun
  exact ⟨hrun, hspec.1, hspec.2.1⟩

/-- C1: when `trace` finds a nearest intersected object its result is the
ambient term `material.colour * material.ambient`, plus the sum over all
scene lights of `shade(point, normal, toRay, material, objects)`, plus,
when `depth < maxRayDepth` and `material.reflectivity > 0`, `reflectivity`
times the result of `trace` on the mirror-reflection ray (direction
`normal*2*(normal^toRay) - toRay`, normalised) at `depth + 1`; when no
object is intersected the result is the background colour black
`(0,0,0)`. -/
theorem trace_structure (sq : Scalar → Scalar) (r : Renderer) (ray : Ray)
    (depth : ℕ) :
    (closestIntersect ray r.scene.objects = none →
      trace sq r ray depth = Colour.black) ∧
    (∀ i t, closestIntersect ray r.scene.objects = some (i, t) →
      trace sq r ray depth =
        ((r.scene.objects.getD i defaultObject).surface
            (ray.position + ray.direction * t)).colour *
          ((r.scene.objects.getD i defaultObject).surface
            (ray.position + ray.direction * t)).ambient +
        colourSum (r.scene.lights.map fun light =>
          light.shade (ray.position + ray.direction * t)
            ((r.scene.objects.getD i defaultObject).normal
              (ray.position + ray.direction * t))
            (Vector.normalise sq
              (ray.position - (ray.position + ray.direction * t)))
            ((r.scene.objects.getD i defaultObject).surface
              (ray.position + ray.direction * t))
            r.scene.objects) +
        (if depth < r.maxRayDepth ∧
            ((r.scene.objects.getD i defaultObject).surface
              (ray.position + ray.direction * t)).reflectivity > 0 then
          trace sq r
            ⟨ray.position + ray.direction * t,
              Vector.normalise sq
                ((r.scene.objects.getD i defaultObject).normal
                    (ray.position + ray.direction * t) * (2 : Scalar) *
                  ((r.scene.objects.getD i defaultObject).normal
                      (ray.position + ray.direction * t)).dot
                    (Vector.normalise sq
                      (ray.position - (ray.position + ray.direction * t))) -
                  Vector.normalise sq
                    (ray.position - (ray.position + ray.direction * t)))⟩
            (depth + 1) *
            ((r.scene.objects.getD i defaultObject).surface
              (ray.position + ray.direction * t)).reflectivity
        else Colour.black)) := by
  constructor
  · intro h
    rw [trace]
    rw [h]
  · intro i t h
    rw [trace]
    rw [h]
    have hfold : ∀ (P N TR : Vector) (M : Material) (init : Colour),
        r.scene.lights.foldl
          (fun c light => c + light.shade P N TR M r.scene.objects) init =
          init + colourSum (r.scene.lights.map fun light =>
            light.shade P N TR M r.scene.objects) := by
      intro P N TR M init
      rw [← List.foldl_map (fun light => light.shade P N TR M r.scene.objects)
        (· + ·) r.scene.lights init]
      exact colourSum_foldl _ init
    simp only [hfold, dite_eq_ite]
    rw [Colour.black_add]
    by_cases hc : depth < r.maxRayDepth ∧
        ((r.scene.objects.getD i defaultObject).surface
          (ray.position + ray.direction * t)).reflectivity > 0
    · rw [if_pos hc, if_pos hc]
    · rw [if_neg hc, if_neg hc, Colour.add_black]

/-- Witness for C1: the single-object renderer with no lights; the hit is
at distance 1 and the trace result is the pure ambient term. -/
theorem trace_structure_witness :
    closestIntersect exRay exRenderer.scene.objects = some (0, 1) ∧
    trace sqOne exRenderer exRay 0 = ⟨1 / 2, 1 / 2, 1 / 2⟩ := by
  have hrun : closestIntersect exRay exRenderer.scene.objects = some (0, 1) := by
    show closestIntersectAux _ _ 0 none = _
    simp only [exRenderer, closestIntersectAux, closerThan, constObject]
    norm_num
  have h := (trace_structure sqOne exRenderer exRay 0).2 0 1 hrun
  refine ⟨hrun, ?_⟩
  rw [h]
  norm_num [exRenderer, constObject, exMaterial, colourSum, colour_smul_def,
    colour_mul_def, colour_add_def, Colour.black]

/-- Fuel-indexed bound for `traceCalls`: a call budgeted `n` remaining
reflection levels performs at most `n + 1` trace invocations. -/
theorem traceCalls_le (sq : Scalar → Scalar) (r : Renderer) :
    ∀ (n : ℕ) (ray : Ray) (depth : ℕ), r.maxRayDepth - depth = n →
      traceCalls sq r ray depth ≤ n + 1 := by
  intro n
  induction n with
  | zero =>
    intro ray depth hn
    rw [traceCalls]
    cases hres : closestIntersect ray r.scene.objects with
    | none => simp
    | some it =>
      simp only
      split_ifs with hc
      · exfalso
        obtain ⟨h1, -⟩ := hc
        omega
      · omega
  | succ n ih =>
    intro ray depth hn
    rw [traceCalls]
    cases hres : closestIntersect ray r.scene.objects with
    | none => simp
    | some it =>
      simp only
      split_ifs with hc
      · obtain ⟨h1, -⟩ := hc
        refine le_trans (Nat.add_le_add_left (ih _ (depth + 1) (by omega)) 1)
          (by omega)
      · omega

/-- With the surface material of every object non-reflective, `traceCalls`
performs no recursive call. -/
theorem traceCalls_no_refl (sq : Scalar → Scalar) (r : Renderer) (ray : Ray)
    (depth : ℕ)
    (hz : ∀ o ∈ r.scene.objects, ∀ p, (o.surface p).reflectivity = 0) :
    traceCalls sq r ray depth = 1 := by
  rw [traceCalls]
  cases hres : closestIntersect ray r.scene.objects with
  | none => rfl
  | some it =>
    simp only
    rw [dif_neg]
    intro hc
    have hmem : r.scene.objects.getD it.1 defaultObject ∈ r.scene.objects :=
      getD_mem _ _ _
        (closestIntersect_some_spec ray r.scene.objects it.1 it.2
          (by rw [hres])).1
    have := hz _ hmem (ray.position + ray.direction * it.2)
    rw [this] at hc
    exact absurd hc.2 (lt_irrefl 0)

/-- C3: `trace` terminates for every ray and starting depth (it is a total
function of the embedding, defined by recursion on the remaining depth
budget), the number of trace invocations never exceeds
`maxRayDepth - depth + 1` (so the nested reflection recursion performs at
most `maxRayDepth` bounces from depth 0), and when the surface material of
every object has `reflectivity = 0` the call performs no recursion at all
(exactly one invocation). -/
theorem trace_depth_bound (sq : Scalar → Scalar) (r : Renderer) (ray : Ray)
    (depth : ℕ) :
    traceCalls sq r ray depth ≤ (r.maxRayDepth - depth) + 1 ∧
    ((∀ o ∈ r.scene.objects, ∀ p, (o.surface p).reflectivity = 0) →
      traceCalls sq r ray depth = 1) :=
  ⟨traceCalls_le sq r _ ray depth rfl,
    fun hz => traceCalls_no_refl sq r ray depth hz⟩

/-- Witness for C3: the single-object zero-reflectivity renderer performs
exactly one trace invocation. -/
theorem trace_depth_bound_witness :
    traceCalls sqOne exRenderer exRay 0 ≤ (exRenderer.maxRayDepth - 0) + 1 ∧
    traceCalls sqOne exRenderer exRay 0 = 1 :=
  ⟨(trace_depth_bound sqOne exRenderer exRay 0).1,
    (trace_depth_bound sqOne exRenderer exRay 0).2
      (fun o ho _p => by rw [List.mem_singleton.mp ho]; rfl)⟩

/-- C9: a ray whose direction is perpendicular to the stored plane
normal (`ray.direction ^ direction = 0`, the parallel-ray case) never
crashes in the embedding (the division is total, `f / 0 = 0`), its
`Plane::intersect` result is 0, i.e. no intersection, and consequently
the intersection search never selects that plane as a hit. -/
theorem plane_parallel_no_hit (p : Plane) (ray : Ray)
    (h : ray.direction.dot p.direction = 0) :
    Plane.intersect p ray = 0 ∧
    ∀ (objects : List Object) (j : ℕ) (t : Scalar),
      closestIntersect ray objects = some (j, t) →
      objects.getD j defaultObject ≠ Plane.toObject p := by
  have heps : (0 : Scalar) < ScalarPrecision := by norm_num [ScalarPrecision]
  have hzero : Plane.intersect p ray = 0 := by
    simp only [Plane.intersect, h, div_zero, zero_sub, zero_add]
    rw [if_neg (by linarith), if_neg (by linarith)]
  refine ⟨hzero, ?_⟩
  intro objects j t hsome heq
  have hspec := closestIntersect_some_spec ray objects j t hsome
  have := hspec.2.1
  rw [heq] at this
  have hval : (Plane.toObject p).intersect ray = 0 := hzero
  rw [hval] at this
  exact hspec.2.2.1 this.symm

/-- Witness for C9: the ray along `+z` against the plane with normal
`(0,1,0)` through the origin; the dot product is 0 and the plane reports
no intersection. -/
theorem plane_parallel_no_hit_witness :
    exRay.direction.dot
      (Plane.mk ⟨0, 0, 0, 0⟩ ⟨0, 1, 0, 0⟩ exMaterial).direction = 0 ∧
    Plane.intersect (Plane.mk ⟨0, 0, 0, 0⟩ ⟨0, 1, 0, 0⟩ exMaterial) exRay = 0 := by
  have hdot : exRay.direction.dot
      (Plane.mk ⟨0, 0, 0, 0⟩ ⟨0, 1, 0, 0⟩ exMaterial).direction = 0 := by
    norm_num [exRay, Vector.dot]
  exact ⟨hdot,
    (plane_parallel_no_hit (Plane.mk ⟨0, 0, 0, 0⟩ ⟨0, 1, 0, 0⟩ exMaterial)
      exRay hdot).1⟩

/-- C8: when the single shadow ray from the surface point toward the
`PointLight` is intersected by any object at positive distance,
`PointLight::shade` returns exactly the zero colour; in particular an
opaque object directly between the point and the light forces a zero
contribution. -/
theorem pointlight_shade_occluded (sq : Scalar → Scalar)
    (rpow : Scalar → Scalar → Scalar) (l : PointLight)
    (point normal toRay : Vector) (material : Material)
    (objects : List Object)
    (h : ∃ o ∈ objects,
      0 < o.intersect ⟨point, Vector.normalise sq (l.position - point)⟩) :
    PointLight.shade sq rpow l point normal toRay material objects =
      Colour.black := by
  obtain ⟨o, ho, hpos⟩ := h
  have hblocked :
      intersects ⟨point, Vector.normalise sq (l.position - point)⟩ objects = true := by
    simp only [intersects, List.any_eq_true]
    exact ⟨o, ho, by simp; exact ne_of_gt hpos⟩
  simp only [PointLight.shade, hblocked]
  rfl

/-- Witness for C8: a constant-distance-1 occluder forces black. -/
theorem pointlight_shade_occluded_witness :
    (0 : Scalar) <
      (constObject 1).intersect
        ⟨⟨0, 0, 0, 0⟩, Vector.normalise sqOne ((⟨0, 5, 0, 0⟩ : Vector) - ⟨0, 0, 0, 0⟩)⟩ ∧
    PointLight.shade sqOne (fun x _ => x) ⟨⟨0, 5, 0, 0⟩, ⟨1, 1, 1⟩⟩
      ⟨0, 0, 0, 0⟩ ⟨0, 1, 0, 0⟩ ⟨0, 1, 0, 0⟩ exMaterial [constObject 1] =
      Colour.black :=
  ⟨by decide,
    pointlight_shade_occluded sqOne (fun x _ => x) ⟨⟨0, 5, 0, 0⟩, ⟨1, 1, 1⟩⟩
      ⟨0, 0, 0, 0⟩ ⟨0, 1, 0, 0⟩ ⟨0, 1, 0, 0⟩ exMaterial [constObject 1]
      ⟨constObject 1, List.mem_singleton.mpr rfl, by decide⟩⟩

/-- The camera basis vectors are always pairwise orthogonal (no
normalisation hypotheses needed): these are polynomial identities in the
components of the direction, even with the transcribed cross-product. -/
theorem basis_pairwise_orthogonal (d : Vector) :
    d.dot (Vector.cross d ⟨0, 1, 0, 0⟩) = 0 ∧
    d.dot (Vector.cross (Vector.cross d ⟨0, 1, 0, 0⟩) d) = 0 ∧
    (Vector.cross d ⟨0, 1, 0, 0⟩).dot
      (Vector.cross (Vector.cross d ⟨0, 1, 0, 0⟩) d) = 0 := by
  obtain ⟨dx, dy, dz, dw⟩ := d
  simp only [Vector.cross, Vector.dot]
  refine ⟨by ring, by ring, by ring⟩

/-- For a unit direction, `right = direction x worldUp` and
`up = right x direction` both have squared length `1 - direction.y ^ 2`. -/
theorem basis_normSq (d : Vector) (hd : Vector.normSq d = 1) :
    Vector.normSq (Vector.cross d ⟨0, 1, 0, 0⟩) = 1 - d.y * d.y ∧
    Vector.normSq (Vector.cross (Vector.cross d ⟨0, 1, 0, 0⟩) d) =
      1 - d.y * d.y := by
  obtain ⟨dx, dy, dz, dw⟩ := d
  simp only [Vector.normSq] at hd ⊢
  simp only [Vector.cross]
  constructor
  · linear_combination hd
  · linear_combination (dx * dx + dz * dz + 1) * hd

/-- When the modelled square root is exact and nonzero at the argument,
`normalise` produces a vector of squared length 1. -/
theorem normalise_normSq (sq : Scalar → Scalar) (v : Vector)
    (hsq : sq (Vector.normSq v) * sq (Vector.normSq v) = Vector.normSq v)
    (hne : sq (Vector.normSq v) ≠ 0) :
    Vector.normSq (Vector.normalise sq v) = 1 := by
  simp only [Vector.normSq] at hsq hne
  simp only [Vector.normalise, Vector.size, vector_sdiv_def, Vector.normSq]
  field_simp [hne]
  linear_combination -hsq

/-- C6 (amended): the derived camera basis vectors are pairwise orthogonal
and `direction` is unit, but `right` and `up` are not normalised: their
squared lengths are `1 - direction.y^2`, so they are unit vectors only
when the viewing direction is horizontal (`direction.y = 0`).  The
hypotheses say the modelled square root is exact and nonzero on the
squared distance from `position` to `lookAt`. -/
theorem camera_basis_orthogonal (sq : Scalar → Scalar)
    (position lookAt : Vector) (width height : Scalar) (lens : Lens)
    (hsq : sq (Vector.normSq (lookAt - position)) *
        sq (Vector.normSq (lookAt - position)) =
        Vector.normSq (lookAt - position))
    (hne : sq (Vector.normSq (lookAt - position)) ≠ 0) :
    let c := Camera.make sq position lookAt width height lens
    (c.direction.dot c.right = 0 ∧ c.direction.dot c.up = 0 ∧
      c.right.dot c.up = 0) ∧
    Vector.normSq c.direction = 1 ∧
    Vector.normSq c.right = 1 - c.direction.y * c.direction.y ∧
    Vector.normSq c.up = 1 - c.direction.y * c.direction.y := by
  intro c
  have hd1 : Vector.normSq c.direction = 1 :=
    normalise_normSq sq (lookAt - position) hsq hne
  exact ⟨basis_pairwise_orthogonal c.direction, hd1,
    (basis_normSq c.direction hd1).1, (basis_normSq c.direction hd1).2⟩

/-- Witness for C6 (amended) at the camera from the origin towards
`(3,4,0)` with the exact square root 5. -/
theorem camera_basis_orthogonal_witness :
    let c := Camera.make sqFive ⟨0, 0, 0, 0⟩ ⟨3, 4, 0, 0⟩ 100 100 ⟨50, 1⟩
    (c.direction.dot c.right = 0 ∧ c.direction.dot c.up = 0 ∧
      c.right.dot c.up = 0) ∧
    Vector.normSq c.direction = 1 ∧
    Vector.normSq c.right = 1 - c.direction.y * c.direction.y ∧
    Vector.normSq c.up = 1 - c.direction.y * c.direction.y :=
  camera_basis_orthogonal sqFive ⟨0, 0, 0, 0⟩ ⟨3, 4, 0, 0⟩ 100 100 ⟨50, 1⟩
    (by norm_num [sqFive, Vector.normSq, vector_sub_def])
    (by norm_num [sqFive])

/-- Counterexample to C6 as stated: for the camera from the origin
towards `(3,4,0)` (a valid configuration: `position` differs from
`lookAt`, the direction is not parallel to `worldUp`, and the modelled
square root is exact there), the derived `right` vector has squared
length `9/25`, failing unit length by `16/25`, far beyond
`ScalarPrecision`: the basis is not orthonormal. -/
theorem camera_basis_not_orthonormal :
    (⟨3, 4, 0, 0⟩ : Vector) ≠ (⟨0, 0, 0, 0⟩ : Vector) ∧
    Vector.cross camEx.direction ⟨0, 1, 0, 0⟩ ≠ (⟨0, 0, 0, 0⟩ : Vector) ∧
    sqFive (Vector.normSq ((⟨3, 4, 0, 0⟩ : Vector) - ⟨0, 0, 0, 0⟩)) *
        sqFive (Vector.normSq ((⟨3, 4, 0, 0⟩ : Vector) - ⟨0, 0, 0, 0⟩)) =
      Vector.normSq ((⟨3, 4, 0, 0⟩ : Vector) - ⟨0, 0, 0, 0⟩) ∧
    Vector.normSq camEx.direction = 1 ∧
    Vector.normSq camEx.right = 9 / 25 ∧
    ScalarPrecision < 1 - Vector.normSq camEx.right := by
  refine ⟨?_, ?_, ?_, ?_, ?_, ?_⟩ <;>
    norm_num [camEx, Camera.make, sqFive, Vector.normSq, Vector.cross,
      vector_sub_def, Vector.normalise, Vector.size, vector_sdiv_def,
      ScalarPrecision, Vector.mk.injEq]

/-- On nonnegative rationals the C truncation agrees with the floor. -/
theorem cint_eq_floor (q : Scalar) (hq : 0 ≤ q) : cint q = ⌊q⌋ := by
  rw [cint, Int.tdiv_eq_ediv (Rat.num_nonneg.mpr hq) (Int.ofNat_nonneg _)]
  rw [← Rat.floor_intCast_div_natCast q.num q.den, Rat.num_div_den]

/-- The C truncation of an integer is itself. -/
theorem cint_intCast (k : ℤ) : cint (k : Scalar) = k := by
  rw [cint, Rat.num_intCast, Rat.den_intCast]
  simp [Int.tdiv_one]

/-- The C truncation of a nonnegative value is nonnegative. -/
theorem cint_nonneg (q : Scalar) (hq : 0 ≤ q) : 0 ≤ cint q := by
  rw [cint_eq_floor q hq]
  exact Int.floor_nonneg.mpr hq

/-- Adding a nonnegative integer commutes with the C truncation on
nonnegative values. -/
theorem cint_add_int (q : Scalar) (k : ℤ) (hq : 0 ≤ q) (hk : 0 ≤ k) :
    cint (q + (k : Scalar)) = cint q + k := by
  rw [cint_eq_floor _ (by positivity), cint_eq_floor q hq, Int.floor_add_int]

/-- Truncated modulo is periodic with the modulus on nonnegative values. -/
theorem tmod_period (x h : ℤ) (hx : 0 ≤ x) (hh : 0 < h) :
    (x + h * 2).tmod (h * 2) = x.tmod (h * 2) := by
  rw [Int.tmod_eq_emod (by omega) (by omega), Int.tmod_eq_emod hx (by omega)]
  have hre : x + h * 2 = x + (h * 2) * 1 := by ring
  rw [hre, Int.add_mul_emod_self_left]

/-- Shifting a nonnegative value by half the modulus flips which half of
the period the truncated remainder lands in. -/
theorem tmod_half_flip (x h : ℤ) (hx : 0 ≤ x) (hh : 0 < h) :
    ((x + h).tmod (h * 2) < h ↔ ¬x.tmod (h * 2) < h) := by
  rw [Int.tmod_eq_emod (by omega) (by omega), Int.tmod_eq_emod hx (by omega)]
  have hr0 : 0 ≤ x % (h * 2) := Int.emod_nonneg x (by omega)
  have hr1 : x % (h * 2) < h * 2 := Int.emod_lt_of_pos x (by omega)
  have key : (x + h) % (h * 2) = (x % (h * 2) + h) % (h * 2) := by
    rw [Int.add_emod, Int.emod_eq_of_lt (le_of_lt hh) (by omega)]
  rw [key]
  by_cases hcase : x % (h * 2) < h
  · rw [Int.emod_eq_of_lt (by omega) (by omega)]
    omega
  · have hre : x % (h * 2) + h = x % (h * 2) - h + h * 2 * 1 := by ring
    rw [hre, Int.add_mul_emod_self_left,
      Int.emod_eq_of_lt (by omega) (by omega)]
    omega

/-- Normal form of `CheckerBoard::surface` for an integral checker width:
`half` evaluates to `2n` and the modulus to `4n`. -/
theorem checkerboard_surface_form (gridOffset : Scalar) (cb : CheckerBoard)
    (n : ℕ) (hw : cb.checkerWidth = (n : Scalar)) (q : Vector) :
    CheckerBoard.surface gridOffset cb q =
      if (cint (q.x + gridOffset)).tmod ((n : ℤ) * 2 * 2) < (n : ℤ) * 2 then
        (if (cint (q.z + gridOffset)).tmod ((n : ℤ) * 2 * 2) < (n : ℤ) * 2 then
          cb.material1
        else cb.material2)
      else
        (if (cint (q.z + gridOffset)).tmod ((n : ℤ) * 2 * 2) < (n : ℤ) * 2 then
          cb.material2
        else cb.material1) := by
  have hhalf : cint (cb.checkerWidth * 2) = (n : ℤ) * 2 := by
    rw [hw,
      show ((n : Scalar) * 2) = (((n : ℤ) * 2 : ℤ) : Scalar) by push_cast; ring]
    exact cint_intCast _
  simp only [CheckerBoard.surface, hhalf]

/-- C7 (amended): `CheckerBoard::surface` returns one of exactly two
material identities; its tiles are `2*checkerWidth` wide, so along each
tiled axis the pattern repeats with period `4*checkerWidth`, while a
shift of `2*checkerWidth` lands in the adjacent tile and yields the other
material.  Stated for an integral `checkerWidth` and for points whose
offset coordinates are nonnegative (the C truncation and truncated `%`
are not periodic across zero). -/
theorem checkerboard_tiles (gridOffset : Scalar) (cb : CheckerBoard)
    (p : Vector) (n : ℕ) (hn : 0 < n) (hw : cb.checkerWidth = (n : Scalar))
    (hx : 0 ≤ p.x + gridOffset) (hz : 0 ≤ p.z + gridOffset) :
    (CheckerBoard.surface gridOffset cb p = cb.material1 ∨
      CheckerBoard.surface gridOffset cb p = cb.material2) ∧
    CheckerBoard.surface gridOffset cb
        (p + ⟨2 * (2 * cb.checkerWidth), 0, 0, 0⟩) =
      CheckerBoard.surface gridOffset cb p ∧
    CheckerBoard.surface gridOffset cb
        (p + ⟨0, 0, 2 * (2 * cb.checkerWidth), 0⟩) =
      CheckerBoard.surface gridOffset cb p ∧
    (cb.material1 ≠ cb.material2 →
      CheckerBoard.surface gridOffset cb (p + ⟨2 * cb.checkerWidth, 0, 0, 0⟩) ≠
        CheckerBoard.surface gridOffset cb p) ∧
    (cb.material1 ≠ cb.material2 →
      CheckerBoard.surface gridOffset cb (p + ⟨0, 0, 2 * cb.checkerWidth, 0⟩) ≠
        CheckerBoard.surface gridOffset cb p) := by
  have hX0 : 0 ≤ cint (p.x + gridOffset) := cint_nonneg _ hx
  have hZ0 : 0 ≤ cint (p.z + gridOffset) := cint_nonneg _ hz
  have hH0 : (0 : ℤ) < (n : ℤ) * 2 := by omega
  have e4x : (p + (⟨2 * (2 * cb.checkerWidth), 0, 0, 0⟩ : Vector)).x + gridOffset =
      (p.x + gridOffset) + (((n : ℤ) * 2 * 2 : ℤ) : Scalar) := by
    simp only [vector_add_def]
    rw [hw]
    push_cast
    ring
  have e4xz : (p + (⟨2 * (2 * cb.checkerWidth), 0, 0, 0⟩ : Vector)).z + gridOffset =
      p.z + gridOffset := by
    simp only [vector_add_def]
    ring
  have e4z : (p + (⟨0, 0, 2 * (2 * cb.checkerWidth), 0⟩ : Vector)).z + gridOffset =
      (p.z + gridOffset) + (((n : ℤ) * 2 * 2 : ℤ) : Scalar) := by
    simp only [vector_add_def]
    rw [hw]
    push_cast
    ring
  have e4zx : (p + (⟨0, 0, 2 * (2 * cb.checkerWidth), 0⟩ : Vector)).x + gridOffset =
      p.x + gridOffset := by
    simp only [vector_add_def]
    ring
  have e2x : (p + (⟨2 * cb.checkerWidth, 0, 0, 0⟩ : Vector)).x + gridOffset =
      (p.x + gridOffset) + (((n : ℤ) * 2 : ℤ) : Scalar) := by
    simp only [vector_add_def]
    rw [hw]
    push_cast
    ring
  have e2xz : (p + (⟨2 * cb.checkerWidth, 0, 0, 0⟩ : Vector)).z + gridOffset =
      p.z + gridOffset := by
    simp only [vector_add_def]
    ring
  have e2z : (p + (⟨0, 0, 2 * cb.checkerWidth, 0⟩ : Vector)).z + gridOffset =
      (p.z + gridOffset) + (((n : ℤ) * 2 : ℤ) : Scalar) := by
    simp only [vector_add_def]
    rw [hw]
    push_cast
    ring
  have e2zx : (p + (⟨0, 0, 2 * cb.checkerWidth, 0⟩ : Vector)).x + gridOffset =
      p.x + gridOffset := by
    simp only [vector_add_def]
    ring
  have hflipx := tmod_half_flip (cint (p.x + gridOffset)) ((n : ℤ) * 2) hX0 hH0
  have hflipz := tmod_half_flip (cint (p.z + gridOffset)) ((n : ℤ) * 2) hZ0 hH0
  refine ⟨?_, ?_, ?_, ?_, ?_⟩
  · rw [checkerboard_surface_form gridOffset cb n hw]
    split_ifs <;> simp
  · rw [checkerboard_surface_form gridOffset cb n hw,
      checkerboard_surface_form gridOffset cb n hw, e4x, e4xz,
      cint_add_int _ _ hx (by positivity),
      tmod_period _ _ hX0 hH0]
  · rw [checkerboard_surface_form gridOffset cb n hw,
      checkerboard_surface_form gridOffset cb n hw, e4z, e4zx,
      cint_add_int _ _ hz (by positivity),
      tmod_period _ _ hZ0 hH0]
  · intro hne
    rw [checkerboard_surface_form gridOffset cb n hw,
      checkerboard_surface_form gridOffset cb n hw, e2x, e2xz,
      cint_add_int _ _ hx (by positivity)]
    by_cases hA : (cint (p.x + gridOffset)).tmod ((n : ℤ) * 2 * 2) < (n : ℤ) * 2
    · have hA2 : ¬(cint (p.x + gridOffset) + (n : ℤ) * 2).tmod
          ((n : ℤ) * 2 * 2) < (n : ℤ) * 2 :=
        fun hcon => (hflipx.mp hcon) hA
      rw [if_neg hA2, if_pos hA]
      by_cases hB : (cint (p.z + gridOffset)).tmod ((n : ℤ) * 2 * 2) < (n : ℤ) * 2
      · rw [if_pos hB, if_pos hB]
        exact fun hcon => hne hcon.symm
      · rw [if_neg hB, if_neg hB]
        exact fun hcon => hne hcon
    · have hA2 : (cint (p.x + gridOffset) + (n : ℤ) * 2).tmod
          ((n : ℤ) * 2 * 2) < (n : ℤ) * 2 := hflipx.mpr hA
      rw [if_pos hA2, if_neg hA]
      by_cases hB : (cint (p.z + gridOffset)).tmod ((n : ℤ) * 2 * 2) < (n : ℤ) * 2
      · rw [if_pos hB, if_pos hB]
        exact fun hcon => hne hcon
      · rw [if_neg hB, if_neg hB]
        exact fun hcon => hne hcon.symm
  · intro hne
    rw [checkerboard_surface_form gridOffset cb n hw,
      checkerboard_surface_form gridOffset cb n hw, e2z, e2zx,
      cint_add_int _ _ hz (by positivity)]
    by_cases hB : (cint (p.z + gridOffset)).tmod ((n : ℤ) * 2 * 2) < (n : ℤ) * 2
    · have hB2 : ¬(cint (p.z + gridOffset) + (n : ℤ) * 2).tmod
          ((n : ℤ) * 2 * 2) < (n : ℤ) * 2 :=
        fun hcon => (hflipz.mp hcon) hB
      by_cases hA : (cint (p.x + gridOffset)).tmod ((n : ℤ) * 2 * 2) < (n : ℤ) * 2
      · rw [if_pos hA, if_pos hA, if_neg hB2, if_pos hB]
        exact fun hcon => hne hcon.symm
      · rw [if_neg hA, if_neg hA, if_neg hB2, if_pos hB]
        exact fun hcon => hne hcon
    · have hB2 : (cint (p.z + gridOffset) + (n : ℤ) * 2).tmod
          ((n : ℤ) * 2 * 2) < (n : ℤ) * 2 := hflipz.mpr hB
      by_cases hA : (cint (p.x + gridOffset)).tmod ((n : ℤ) * 2 * 2) < (n : ℤ) * 2
      · rw [if_pos hA, if_pos hA, if_pos hB2, if_neg hB]
        exact fun hcon => hne hcon
      · rw [if_neg hA, if_neg hA, if_pos hB2, if_neg hB]
        exact fun hcon => hne hcon.symm

/-- Witness for C7 (amended) with `checkerWidth = 30` at the point
`(66, 0, 7)`: shifting by the full period `4 * checkerWidth = 120` along
`x` returns the same material. -/
theorem checkerboard_tiles_witness :
    (0 : Scalar) ≤ (⟨66, 0, 7, 0⟩ : Vector).x + 0 ∧
    CheckerBoard.surface 0 cbEx
        ((⟨66, 0, 7, 0⟩ : Vector) + ⟨2 * (2 * cbEx.checkerWidth), 0, 0, 0⟩) =
      CheckerBoard.surface 0 cbEx ⟨66, 0, 7, 0⟩ :=
  ⟨by norm_num,
    (checkerboard_tiles 0 cbEx ⟨66, 0, 7, 0⟩ 30 (by norm_num)
      (by norm_num [cbEx]) (by norm_num) (by norm_num)).2.1⟩

/-- Counterexample to C7 as stated: for the checkerboard of width 30 and
the origin (offset 0, the main.cc variant), shifting the surface point by
`2 * checkerWidth = 60` along `x` returns the OTHER material identity,
not the same one: the period along an axis is `4 * checkerWidth`, not
`2 * checkerWidth`. -/
theorem checkerboard_half_period_flips :
    2 * cbEx.checkerWidth = 60 ∧
    CheckerBoard.surface 0 cbEx ⟨0, 0, 0, 0⟩ = cbEx.material1 ∧
    CheckerBoard.surface 0 cbEx
        ((⟨0, 0, 0, 0⟩ : Vector) + ⟨2 * cbEx.checkerWidth, 0, 0, 0⟩) =
      cbEx.material2 ∧
    cbEx.material1 ≠ cbEx.material2 := by
  refine ⟨by norm_num [cbEx], ?_, ?_, ?_⟩
  · rw [checkerboard_surface_form 0 cbEx 30 (by norm_num [cbEx])]
    rw [show ((⟨0, 0, 0, 0⟩ : Vector).x + (0 : Scalar)) = (((0 : ℤ)) : Scalar)
      by norm_num]
    rw [cint_intCast]
    rw [if_pos (by decide), if_pos (by decide)]
  · rw [checkerboard_surface_form 0 cbEx 30 (by norm_num [cbEx])]
    rw [show (((⟨0, 0, 0, 0⟩ : Vector) +
        ⟨2 * cbEx.checkerWidth, 0, 0, 0⟩).x + (0 : Scalar)) =
        (((60 : ℤ)) : Scalar) by norm_num [vector_add_def, cbEx]]
    rw [show (((⟨0, 0, 0, 0⟩ : Vector) +
        ⟨2 * cbEx.checkerWidth, 0, 0, 0⟩).z + (0 : Scalar)) =
        (((0 : ℤ)) : Scalar) by norm_num [vector_add_def]]
    rw [cint_intCast, cint_intCast]
    rw [if_neg (by decide), if_pos (by decide)]
  · norm_num [cbEx, exMaterial, exMaterial2, Material.mk.injEq, Colour.mk.injEq]

end RT
